import Mathlib

/-!
Verification development for the span buffering and segment-flush pipeline
(`sentry/spans/consumers/process/factory.py`).

The pure processing logic of the consumer is embedded shallowly:

* `prepare_message` embeds the timestamp assigner defined inside
  `ProcessSpansStrategyFactory.create_with_partitions`.
* `processMsg` embeds the body of the per-message loop of `process_batch`
  (decode, shard resolution, killswitch admission check, `Span`
  materialization), and `process_batch` the whole function, returning the
  pair `(spans, min_timestamp)` that the source hands to
  `SpansBuffer.process_spans(spans, now=min_timestamp)` and returns.
* JSON decoding by the external `rapidjson` library is modelled by attaching
  to each payload the optional structured record it parses to (`none` for a
  malformed payload); dictionary bracket access on a missing key is a
  `keyError`, `.get` access yields an `Option`.
* The external killswitch predicate `killswitch_matches_context` is a
  parameter: a boolean function of the `org_id`, `project_id`, `trace_id`
  and `partition_id` context values the source passes to it.
* `SpansBuffer` (imported from `sentry.spans.buffer`, whose code is not part
  of this repository snapshot) is modelled from the spec, see the doc
  comments on `SpansBuffer`, `process_spans` and `take_flushable`.
-/

namespace SpansConsumer

/-- The structured record a span payload decodes to. Fields read by
`process_batch` via bracket access are required at use site (`keyError` when
`none`); fields read via `.get` stay optional. `is_remote` holds the Python
truthiness of `val.get("is_remote")` (`False` when the key is absent). -/
structure SpanRecord where
  organization_id : Option Int
  project_id : Option Int
  trace_id : Option String
  span_id : Option String
  parent_span_id : Option String
  is_remote : Bool
  deriving DecidableEq, Repr

/-- A Kafka payload: the raw serialized bytes, together with the structured
record `rapidjson.loads` parses them to (`none` when parsing fails, the
model of a malformed payload). -/
structure KafkaPayload where
  value : List Nat
  parsed : Option SpanRecord
  deriving DecidableEq, Repr

/-- The `Span` value materialized by `process_batch` (constructor call at
factory.py lines 149-157). -/
structure Span where
  partition : Nat
  trace_id : String
  span_id : String
  parent_span_id : Option String
  project_id : Int
  payload : List Nat
  is_segment_span : Bool
  deriving DecidableEq, Repr

/-- One element of the `ValuesBatch` consumed by `process_batch`: the
`(timestamp, payload)` pair produced by `prepare_message`, plus the indices
of the partitions in the message value's own `committable` mapping. -/
structure ValueMsg where
  timestamp : Int
  payload : KafkaPayload
  committable : List Nat
  deriving DecidableEq, Repr

/-- The external admission predicate `killswitch_matches_context
("spans.drop-in-buffer", ...)`, as a function of the context values the
source passes: `org_id`, `project_id`, `trace_id`, `partition_id`. -/
abbrev Killswitch := Option Int → Option Int → Option String → Nat → Bool

/-- The errors `process_batch` can raise: a `rapidjson` decode failure, a
`KeyError` on a required field, or the failure of the
`assert min_timestamp is not None` statement. -/
inductive BatchError
  | decodeError
  | keyError (key : String)
  | assertionFailed
  deriving DecidableEq, Repr

/-- Shard resolution for one message (factory.py lines 134-136):
`partition_id = first_partition; if len(value.committable) == 1:
partition_id = next(iter(value.committable)).index`. -/
def resolvePartition (first_partition : Nat) (committable : List Nat) : Nat :=
  match committable with
  | [p] => p
  | _ => first_partition

/-- The body of the per-message loop of `process_batch` (factory.py lines
132-158), except for the min-timestamp update which precedes it: decode the
payload, resolve the shard, apply the killswitch (`.ok none` models
`continue`), then materialize the `Span` (bracket accesses in evaluation
order: `trace_id`, `span_id`, `project_id`). -/
def processMsg (ks : Killswitch) (first_partition : Nat) (v : ValueMsg) :
    Except BatchError (Option Span) :=
  match v.payload.parsed with
  | none => .error .decodeError
  | some val =>
    let partition_id := resolvePartition first_partition v.committable
    if ks val.organization_id val.project_id val.trace_id partition_id then
      .ok none
    else
      match val.trace_id with
      | none => .error (.keyError "trace_id")
      | some tid =>
        match val.span_id with
        | none => .error (.keyError "span_id")
        | some sid =>
          match val.project_id with
          | none => .error (.keyError "project_id")
          | some pid =>
            .ok (some
              { partition := partition_id
                trace_id := tid
                span_id := sid
                parent_span_id := val.parent_span_id
                project_id := pid
                payload := v.payload.value
                is_segment_span := val.parent_span_id.isNone || val.is_remote })

/-- The running-minimum update at factory.py lines 129-130:
`if min_timestamp is None or timestamp < min_timestamp: min_timestamp =
timestamp`. -/
def updateMin (minT : Option Int) (t : Int) : Option Int :=
  match minT with
  | none => some t
  | some m => if t < m then some t else some m

/-- The loop of `process_batch`, threading the running minimum timestamp and
the accumulated span list; the base case is the `assert min_timestamp is not
None` check followed by the call handing `(spans, min_timestamp)` to the
buffer. -/
def processBatchAux (ks : Killswitch) (fp : Nat) :
    List ValueMsg → Option Int → List Span → Except BatchError (List Span × Int)
  | [], minT, spans =>
    match minT with
    | none => .error .assertionFailed
    | some m => .ok (spans, m)
  | v :: rest, minT, spans =>
    let minT' := updateMin minT v.timestamp
    match processMsg ks fp v with
    | .error e => .error e
    | .ok none => processBatchAux ks fp rest minT' spans
    | .ok (some s) => processBatchAux ks fp rest minT' (spans ++ [s])

/-- `process_batch` (factory.py lines 120-162). An `.ok (spans, now)` result
is exactly the argument pair of the source's final
`buffer.process_spans(spans, now=min_timestamp)` call together with the
returned `min_timestamp`; an `.error` result models a raised exception, in
which case `process_spans` is never called. -/
def process_batch (ks : Killswitch) (fp : Nat) (values : List ValueMsg) :
    Except BatchError (List Span × Int) :=
  processBatchAux ks fp values none []

/-- The configured default shard (factory.py line 65):
`first_partition = next((p.index for p in partitions), 0)`. -/
def firstPartition (partitions : List Nat) : Nat :=
  partitions.headD 0

/-- Truncation of a rational toward zero, the behavior of Python's `int()`
on a (finite) float. -/
def pyTrunc (q : ℚ) : ℤ :=
  if 0 ≤ q then ⌊q⌋ else ⌈q⌉

/-- The timestamp assigner `prepare_message` (factory.py lines 97-106):
`(int(message.timestamp.timestamp() if message.timestamp else time.time()),
message.payload)`. The producer timestamp and the wall clock are rationals
(seconds); `message.timestamp` being `None` is the `none` case. -/
def prepare_message (producer_timestamp : Option ℚ) (wallclock : ℚ)
    (payload : KafkaPayload) : Int × KafkaPayload :=
  (pyTrunc (match producer_timestamp with | some t => t | none => wallclock),
    payload)

/-- The flush idle threshold: 120 seconds of logical time. -/
def flush_threshold : Int := 120

/-- Modelled from the spec: the `Segment` aggregation unit of the Buffer
Engine (`sentry.spans.buffer`, not part of this repository snapshot):
insertion-ordered spans deduplicated by `span_id`, a non-decreasing
`last_update` logical timestamp, and the `created_at` timestamp of first
ingestion. -/
structure Segment where
  spans : List Span
  last_update : Int
  created_at : Int
  deriving DecidableEq, Repr

/-- Modelled from the spec: the `SpansBuffer` state (`sentry.spans.buffer`,
not part of this repository snapshot): per-`(shard, trace_id)` open
segments, the fixed list of assigned shards, and the per-shard watermark
tracked as the maximum `now` seen across all ingestion calls for that
shard. -/
structure SpansBuffer where
  assigned_shards : List Nat
  segments : List ((Nat × String) × Segment)
  watermarks : List (Nat × Int)
  deriving DecidableEq, Repr

/-- The tracked watermark of a shard; a shard with no recorded watermark has
seen no ingestion call yet (and hence holds no segment). -/
def watermarkOf (buf : SpansBuffer) (shard : Nat) : Int :=
  (buf.watermarks.lookup shard).getD 0

/-- Modelled from the spec: one span's ingestion into the segment table —
create the segment for `(shard, trace_id)` if absent; otherwise append the
span if its `span_id` is not already present and set
`last_update = max(last_update, now)`. -/
def ingestOne (now : Int) (segs : List ((Nat × String) × Segment)) (s : Span) :
    List ((Nat × String) × Segment) :=
  match segs with
  | [] => [((s.partition, s.trace_id), ⟨[s], now, now⟩)]
  | kv :: rest =>
    if kv.1 = (s.partition, s.trace_id) then
      (kv.1,
        { spans :=
            if kv.2.spans.any (fun t => t.span_id == s.span_id) then kv.2.spans
            else kv.2.spans ++ [s]
          last_update := max kv.2.last_update now
          created_at := kv.2.created_at }) :: rest
    else kv :: ingestOne now rest s

/-- Raise the recorded watermark of `shard` to at least `now`, recording it
if absent. -/
def bumpWatermark (now : Int) (shard : Nat) :
    List (Nat × Int) → List (Nat × Int)
  | [] => [(shard, now)]
  | kv :: rest =>
    if kv.1 = shard then (kv.1, max kv.2 now) :: rest
    else kv :: bumpWatermark now shard rest

/-- Modelled from the spec: `SpansBuffer.process_spans(spans, now)`, the
Buffer Engine's ingestion operation — ingest each span into the segment of
`(span.partition, span.trace_id)` (idempotent on `span_id`), and advance
every assigned shard's tracked watermark to the maximum `now` seen so far
(the call counts as an ingestion call for each shard the buffer owns, so
the logical clock advances even when the span list is empty). -/
def process_spans (buf : SpansBuffer) (spans : List Span) (now : Int) :
    SpansBuffer :=
  { buf with
    segments := spans.foldl (ingestOne now) buf.segments
    watermarks := buf.assigned_shards.foldl
      (fun w sh => bumpWatermark now sh w) buf.watermarks }

/-- Split the segment table into the segments of `shard` whose idle time
against the watermark `wm` has reached `flush_threshold`, and the rest. -/
def takeFlushableSegs (wm : Int) (shard : Nat) :
    List ((Nat × String) × Segment) →
      List ((Nat × String) × Segment) × List ((Nat × String) × Segment)
  | [] => ([], [])
  | kv :: rest =>
    if kv.1.1 = shard ∧ flush_threshold ≤ wm - kv.2.last_update then
      (kv :: (takeFlushableSegs wm shard rest).1, (takeFlushableSegs wm shard rest).2)
    else ((takeFlushableSegs wm shard rest).1, kv :: (takeFlushableSegs wm shard rest).2)

/-- Modelled from the spec: `SpansBuffer.take_flushable(shard)` — atomically
identify every segment of `shard` whose tracked `watermark − last_update`
has reached `flush_threshold`, remove them from the live state and return
them. The comparison uses the buffer's own tracked watermark. -/
def take_flushable (buf : SpansBuffer) (shard : Nat) :
    List ((Nat × String) × Segment) × SpansBuffer :=
  ((takeFlushableSegs (watermarkOf buf shard) shard buf.segments).1,
    { buf with
      segments := (takeFlushableSegs (watermarkOf buf shard) shard buf.segments).2 })

/-- The running minimum over a batch suffix, continuing from an optional
already-computed minimum; mirrors how `process_batch` threads
`min_timestamp` through its loop. -/
def foldMin (minT : Option Int) (l : List ValueMsg) : Option Int :=
  l.foldl (fun m v => updateMin m v.timestamp) minT

/-- The span a message contributes to the ingested list: `some` exactly when
`processMsg` neither raises nor drops it. -/
def spanOf (ks : Killswitch) (fp : Nat) (v : ValueMsg) : Option Span :=
  match processMsg ks fp v with
  | .ok (some s) => some s
  | _ => none

/-! Concrete fixtures used by witness and counterexample theorems. -/

/-- A killswitch that never matches. -/
def ksNone : Killswitch := fun _ _ _ _ => false

/-- A killswitch that always matches. -/
def ksAll : Killswitch := fun _ _ _ _ => true

/-- A well-formed decoded record. -/
def exRecord : SpanRecord :=
  ⟨some 1, some 2, some "trace", some "span", none, false⟩

/-- A decoded record missing the required `span_id` key. -/
def exRecordNoSpanId : SpanRecord :=
  ⟨some 1, some 2, some "trace", none, none, false⟩

/-- A message whose committable holds source partition 0 only. -/
def exMsgP0 : ValueMsg := ⟨10, ⟨[1, 2], some exRecord⟩, [0]⟩

/-- A message whose committable holds source partition 1 only. -/
def exMsgP1 : ValueMsg := ⟨7, ⟨[3], some exRecord⟩, [1]⟩

/-- A message whose payload decodes but lacks `span_id`. -/
def exMsgNoSpanId : ValueMsg := ⟨10, ⟨[9], some exRecordNoSpanId⟩, [0]⟩

/-- A message whose payload does not decode at all. -/
def exMsgMalformed : ValueMsg := ⟨4, ⟨[0], none⟩, [0]⟩

/-- The span `process_batch` builds from `exMsgP0`. -/
def exSpan0 : Span := ⟨0, "trace", "span", none, 2, [1, 2], true⟩

/-- The span `process_batch` builds from `exMsgP1`. -/
def exSpan1 : Span := ⟨1, "trace", "span", none, 2, [3], true⟩

/-! Helper lemmas about the running minimum. -/

theorem updateMin_some (m t : Int) : updateMin (some m) t = some (min m t) := by
  show (if t < m then some t else some m) = some (min m t)
  rcases lt_or_ge t m with h | h
  · rw [if_pos h, min_eq_right h.le]
  · rw [if_neg (not_lt.mpr h), min_eq_left h]

theorem foldMin_some (m : Int) (l : List ValueMsg) :
    ∃ r, foldMin (some m) l = some r ∧ r ≤ m ∧ (∀ v ∈ l, r ≤ v.timestamp) ∧
      (r = m ∨ ∃ v ∈ l, v.timestamp = r) := by
  induction l generalizing m with
  | nil => exact ⟨m, rfl, le_refl m, by simp, Or.inl rfl⟩
  | cons v rest ih =>
    obtain ⟨r, hr, hle, hall, hmem⟩ := ih (min m v.timestamp)
    refine ⟨r, ?_, hle.trans (min_le_left _ _), ?_, ?_⟩
    · show foldMin (updateMin (some m) v.timestamp) rest = some r
      rw [updateMin_some]
      exact hr
    · intro u hu
      rcases List.mem_cons.mp hu with h | h
      · exact h ▸ hle.trans (min_le_right _ _)
      · exact hall u h
    · rcases hmem with h | ⟨u, hu, h⟩
      · rcases le_total m v.timestamp with hc | hc
        · exact Or.inl (h.trans (min_eq_left hc))
        · exact Or.inr ⟨v, List.mem_cons_self _ _, (h.trans (min_eq_right hc)).symm⟩
      · exact Or.inr ⟨u, List.mem_cons_of_mem _ hu, h⟩

/-! Helper lemmas about the batch loop. -/

theorem processBatchAux_ok_min (ks : Killswitch) (fp : Nat) (l : List ValueMsg)
    (minT : Option Int) (acc spans : List Span) (now : Int)
    (h : processBatchAux ks fp l minT acc = .ok (spans, now)) :
    foldMin minT l = some now := by
  induction l generalizing minT acc with
  | nil =>
    cases minT with
    | none => exact absurd h (by simp [processBatchAux])
    | some m =>
      have : m = now := by
        have h' := h
        simp only [processBatchAux, Except.ok.injEq, Prod.mk.injEq] at h'
        exact h'.2
      exact congrArg some this
  | cons v rest ih =>
    rw [show processBatchAux ks fp (v :: rest) minT acc =
        (match processMsg ks fp v with
         | .error e => .error e
         | .ok none => processBatchAux ks fp rest (updateMin minT v.timestamp) acc
         | .ok (some s) =>
            processBatchAux ks fp rest (updateMin minT v.timestamp) (acc ++ [s]))
      from rfl] at h
    cases hm : processMsg ks fp v with
    | error e => rw [hm] at h; exact absurd h (by simp)
    | ok o =>
      rw [hm] at h
      cases o with
      | none => exact ih _ _ h
      | some s => exact ih _ _ h

theorem processBatchAux_ok_spans (ks : Killswitch) (fp : Nat) (l : List ValueMsg)
    (minT : Option Int) (acc spans : List Span) (now : Int)
    (h : processBatchAux ks fp l minT acc = .ok (spans, now)) :
    spans = acc ++ l.filterMap (spanOf ks fp) := by
  induction l generalizing minT acc with
  | nil =>
    cases minT with
    | none => exact absurd h (by simp [processBatchAux])
    | some m =>
      have h' := h
      simp only [processBatchAux, Except.ok.injEq, Prod.mk.injEq] at h'
      simp [h'.1.symm]
  | cons v rest ih =>
    rw [show processBatchAux ks fp (v :: rest) minT acc =
        (match processMsg ks fp v with
         | .error e => .error e
         | .ok none => processBatchAux ks fp rest (updateMin minT v.timestamp) acc
         | .ok (some s) =>
            processBatchAux ks fp rest (updateMin minT v.timestamp) (acc ++ [s]))
      from rfl] at h
    cases hm : processMsg ks fp v with
    | error e => rw [hm] at h; exact absurd h (by simp)
    | ok o =>
      rw [hm] at h
      cases o with
      | none =>
        have hs : spanOf ks fp v = none := by simp [spanOf, hm]
        rw [List.filterMap_cons, hs]
        exact ih _ _ h
      | some s =>
        have hs : spanOf ks fp v = some s := by simp [spanOf, hm]
        rw [List.filterMap_cons, hs]
        have := ih _ _ h
        simpa using this

theorem processMsg_ne_assertion (ks : Killswitch) (fp : Nat) (v : ValueMsg) :
    processMsg ks fp v ≠ Except.error BatchError.assertionFailed := by
  unfold processMsg
  rcases hp : v.payload.parsed with _ | val
  · simp
  · dsimp only
    rcases hks : ks val.organization_id val.project_id val.trace_id
        (resolvePartition fp v.committable) with _ | _
    · simp only [hks, Bool.false_eq_true, if_false]
      rcases val.trace_id with _ | tid
      · simp
      · rcases val.span_id with _ | sid
        · simp
        · rcases val.project_id with _ | pid <;> simp
    · simp [hks]

theorem processBatchAux_some_ne_assertion (ks : Killswitch) (fp : Nat)
    (l : List ValueMsg) (m : Int) (acc : List Span) :
    processBatchAux ks fp l (some m) acc ≠ .error .assertionFailed := by
  induction l generalizing m acc with
  | nil => simp [processBatchAux]
  | cons v rest ih =>
    rw [show processBatchAux ks fp (v :: rest) (some m) acc =
        (match processMsg ks fp v with
         | .error e => .error e
         | .ok none => processBatchAux ks fp rest (updateMin (some m) v.timestamp) acc
         | .ok (some s) =>
            processBatchAux ks fp rest (updateMin (some m) v.timestamp) (acc ++ [s]))
      from rfl]
    cases hm : processMsg ks fp v with
    | error e =>
      intro hc
      have : e = BatchError.assertionFailed := by
        simpa using hc
      exact processMsg_ne_assertion ks fp v (this ▸ hm)
    | ok o =>
      rw [updateMin_some]
      cases o with
      | none => exact ih _ _
      | some s => exact ih _ _

theorem processMsg_ok_some_inv (ks : Killswitch) (fp : Nat) (v : ValueMsg)
    (s : Span) (h : processMsg ks fp v = .ok (some s)) :
    ∃ val tid sid pid, v.payload.parsed = some val ∧
      val.trace_id = some tid ∧ val.span_id = some sid ∧
      val.project_id = some pid ∧
      ks val.organization_id val.project_id val.trace_id
        (resolvePartition fp v.committable) = false ∧
      s = { partition := resolvePartition fp v.committable
            trace_id := tid
            span_id := sid
            parent_span_id := val.parent_span_id
            project_id := pid
            payload := v.payload.value
            is_segment_span := val.parent_span_id.isNone || val.is_remote } := by
  unfold processMsg at h
  rcases hp : v.payload.parsed with _ | val
  · rw [hp] at h
    exact absurd h (by simp)
  · rw [hp] at h
    dsimp only at h
    rcases hks : ks val.organization_id val.project_id val.trace_id
        (resolvePartition fp v.committable) with _ | _
    · rw [hks] at h
      simp only [Bool.false_eq_true, if_false] at h
      rcases ht : val.trace_id with _ | tid
      · rw [ht] at h
        exact absurd h (by simp)
      · rw [ht] at h
        rcases hs : val.span_id with _ | sid
        · rw [hs] at h
          exact absurd h (by simp)
        · rw [hs] at h
          rcases hj : val.project_id with _ | pid
          · rw [hj] at h
            exact absurd h (by simp)
          · rw [hj] at h
            refine ⟨val, tid, sid, pid, rfl, ht, hs, hj, hks, ?_⟩
            have := Except.ok.inj h
            exact (Option.some.inj this).symm
    · rw [hks] at h
      simp only [if_true] at h
      exact absurd h (by simp)

theorem processMsg_dropped (ks : Killswitch) (fp : Nat) (v : ValueMsg)
    (val : SpanRecord) (hp : v.payload.parsed = some val)
    (hks : ks val.organization_id val.project_id val.trace_id
      (resolvePartition fp v.committable) = true) :
    processMsg ks fp v = .ok none := by
  unfold processMsg
  rw [hp]
  dsimp only
  rw [hks]
  simp

theorem processMsg_bad_error (ks : Killswitch) (fp : Nat) (v : ValueMsg)
    (hbad : v.payload.parsed = none ∨
      ∃ val, v.payload.parsed = some val ∧
        ks val.organization_id val.project_id val.trace_id
          (resolvePartition fp v.committable) = false ∧
        (val.trace_id = none ∨ val.span_id = none ∨ val.project_id = none)) :
    ∃ e, processMsg ks fp v = .error e := by
  unfold processMsg
  rcases hbad with hp | ⟨val, hp, hks, hkey⟩
  · rw [hp]
    exact ⟨.decodeError, rfl⟩
  · rw [hp]
    dsimp only
    rw [hks]
    simp only [Bool.false_eq_true, if_false]
    rcases ht : val.trace_id with _ | tid
    · exact ⟨.keyError "trace_id", rfl⟩
    · rcases hs : val.span_id with _ | sid
      · exact ⟨.keyError "span_id", rfl⟩
      · rcases hj : val.project_id with _ | pid
        · exact ⟨.keyError "project_id", rfl⟩
        · rw [ht, hs, hj] at hkey
          rcases hkey with h | h | h <;> exact absurd h (by simp)

theorem processBatchAux_error_of_mem (ks : Killswitch) (fp : Nat)
    (l : List ValueMsg) (v : ValueMsg) (hv : v ∈ l)
    (he : ∃ e, processMsg ks fp v = .error e) :
    ∀ minT acc, ∃ e, processBatchAux ks fp l minT acc = .error e := by
  induction l with
  | nil => cases hv
  | cons u rest ih =>
    intro minT acc
    rw [show processBatchAux ks fp (u :: rest) minT acc =
        (match processMsg ks fp u with
         | .error e => .error e
         | .ok none => processBatchAux ks fp rest (updateMin minT u.timestamp) acc
         | .ok (some s) =>
            processBatchAux ks fp rest (updateMin minT u.timestamp) (acc ++ [s]))
      from rfl]
    cases hm : processMsg ks fp u with
    | error e => exact ⟨e, rfl⟩
    | ok o =>
      rcases List.mem_cons.mp hv with rfl | hv'
      · obtain ⟨e, he⟩ := he
        rw [he] at hm
        cases hm
      · cases o with
        | none => exact ih hv' _ _
        | some s => exact ih hv' _ _

theorem processBatchAux_all_dropped (ks : Killswitch) (fp : Nat)
    (l : List ValueMsg)
    (hall : ∀ v ∈ l, processMsg ks fp v = .ok none) :
    ∀ minT acc, processBatchAux ks fp l minT acc =
      (match foldMin minT l with
       | none => .error .assertionFailed
       | some m => .ok (acc, m)) := by
  induction l with
  | nil => intro minT acc; rfl
  | cons v rest ih =>
    intro minT acc
    rw [show processBatchAux ks fp (v :: rest) minT acc =
        (match processMsg ks fp v with
         | .error e => .error e
         | .ok none => processBatchAux ks fp rest (updateMin minT v.timestamp) acc
         | .ok (some s) =>
            processBatchAux ks fp rest (updateMin minT v.timestamp) (acc ++ [s]))
      from rfl]
    rw [hall v (List.mem_cons_self _ _)]
    exact ih (fun u hu => hall u (List.mem_cons_of_mem _ hu)) _ _

/-! Helper lemmas about the buffer model. -/

theorem lookup_cons_self (k : Nat) (b : Int) (es : List (Nat × Int)) :
    List.lookup k ((k, b) :: es) = some b := by
  simp [List.lookup]

theorem lookup_cons_ne (a k : Nat) (h : a ≠ k) (b : Int) (es : List (Nat × Int)) :
    List.lookup a ((k, b) :: es) = List.lookup a es := by
  simp [List.lookup, beq_false_of_ne h]

theorem bumpWatermark_lookup_self (now : Int) (sh : Nat) (w : List (Nat × Int)) :
    (bumpWatermark now sh w).lookup sh =
      some (max ((w.lookup sh).getD now) now) := by
  induction w with
  | nil =>
    rw [show bumpWatermark now sh [] = [(sh, now)] from rfl, lookup_cons_self]
    rw [show List.lookup sh ([] : List (Nat × Int)) = none from rfl]
    rw [Option.getD_none, max_self]
  | cons kv rest ih =>
    rcases kv with ⟨k, x⟩
    rw [show bumpWatermark now sh ((k, x) :: rest) =
        (if k = sh then (k, max x now) :: rest
         else (k, x) :: bumpWatermark now sh rest) from rfl]
    by_cases h : k = sh
    · subst h
      rw [if_pos rfl, lookup_cons_self, lookup_cons_self, Option.getD_some]
    · rw [if_neg h, lookup_cons_ne sh k (Ne.symm h), lookup_cons_ne sh k (Ne.symm h)]
      exact ih

theorem bumpWatermark_lookup_other (now : Int) (sh sh' : Nat) (h : sh' ≠ sh)
    (w : List (Nat × Int)) :
    (bumpWatermark now sh' w).lookup sh = w.lookup sh := by
  induction w with
  | nil =>
    rw [show bumpWatermark now sh' [] = [(sh', now)] from rfl]
    rw [lookup_cons_ne sh sh' (Ne.symm h)]
  | cons kv rest ih =>
    rcases kv with ⟨k, x⟩
    rw [show bumpWatermark now sh' ((k, x) :: rest) =
        (if k = sh' then (k, max x now) :: rest
         else (k, x) :: bumpWatermark now sh' rest) from rfl]
    by_cases hk : k = sh'
    · subst hk
      rw [if_pos rfl]
      rw [lookup_cons_ne sh k (Ne.symm h), lookup_cons_ne sh k (Ne.symm h)]
    · rw [if_neg hk]
      by_cases hks : k = sh
      · subst hks
        rw [lookup_cons_self, lookup_cons_self]
      · rw [lookup_cons_ne sh k (Ne.symm hks), lookup_cons_ne sh k (Ne.symm hks)]
        exact ih

theorem foldlBump_not_mem (now : Int) (shards : List Nat) (sh : Nat)
    (h : sh ∉ shards) (w : List (Nat × Int)) :
    (shards.foldl (fun acc s => bumpWatermark now s acc) w).lookup sh =
      w.lookup sh := by
  induction shards generalizing w with
  | nil => rfl
  | cons s rest ih =>
    have hs : s ≠ sh := fun hc => h (hc ▸ List.mem_cons_self _ _)
    have hr : sh ∉ rest := fun hc => h (List.mem_cons_of_mem _ hc)
    rw [List.foldl_cons, ih hr, bumpWatermark_lookup_other now sh s hs]

theorem foldlBump_mem (now : Int) (shards : List Nat) (sh : Nat)
    (h : sh ∈ shards) (w : List (Nat × Int)) :
    (shards.foldl (fun acc s => bumpWatermark now s acc) w).lookup sh =
      some (max ((w.lookup sh).getD now) now) := by
  induction shards generalizing w with
  | nil => cases h
  | cons s rest ih =>
    rw [List.foldl_cons]
    by_cases hm : sh ∈ rest
    · rw [ih hm]
      by_cases hs : s = sh
      · subst hs
        rw [bumpWatermark_lookup_self]
        rw [Option.getD_some, max_assoc, max_self]
      · rw [bumpWatermark_lookup_other now sh s hs]
    · have hsh : sh = s := by
        rcases List.mem_cons.mp h with h' | h'
        · exact h'
        · exact absurd h' hm
      subst hsh
      rw [foldlBump_not_mem now rest sh hm, bumpWatermark_lookup_self]

theorem takeFlushableSegs_mem (wm : Int) (shard : Nat)
    (l : List ((Nat × String) × Segment)) (kv : (Nat × String) × Segment) :
    kv ∈ (takeFlushableSegs wm shard l).1 ↔
      kv ∈ l ∧ kv.1.1 = shard ∧
        flush_threshold ≤ wm - kv.2.last_update := by
  induction l with
  | nil => simp [takeFlushableSegs]
  | cons hd rest ih =>
    rw [show takeFlushableSegs wm shard (hd :: rest) =
        (if hd.1.1 = shard ∧ flush_threshold ≤ wm - hd.2.last_update then
          (hd :: (takeFlushableSegs wm shard rest).1,
            (takeFlushableSegs wm shard rest).2)
        else ((takeFlushableSegs wm shard rest).1,
          hd :: (takeFlushableSegs wm shard rest).2)) from rfl]
    by_cases hc : hd.1.1 = shard ∧ flush_threshold ≤ wm - hd.2.last_update
    · rw [if_pos hc]
      simp only [List.mem_cons, ih]
      constructor
      · rintro (rfl | ⟨hm, h1, h2⟩)
        · exact ⟨Or.inl rfl, hc.1, hc.2⟩
        · exact ⟨Or.inr hm, h1, h2⟩
      · rintro ⟨rfl | hm, h1, h2⟩
        · exact Or.inl rfl
        · exact Or.inr ⟨hm, h1, h2⟩
    · rw [if_neg hc]
      dsimp only
      rw [ih]
      constructor
      · rintro ⟨hm, h1, h2⟩
        exact ⟨List.mem_cons_of_mem _ hm, h1, h2⟩
      · rintro ⟨hmem, h1, h2⟩
        rcases List.mem_cons.mp hmem with rfl | hm
        · exact absurd ⟨h1, h2⟩ hc
        · exact ⟨hm, h1, h2⟩

/-! The claims. -/

/-- C1: a segment is returned by `take_flushable` on its shard precisely
when the shard's tracked watermark minus the segment's `last_update` is at
least `flush_threshold` (120 seconds of logical time): it is never returned
while the difference is below the threshold, and it is returned on the
first call once the condition holds. -/
theorem take_flushable_mem_iff (buf : SpansBuffer) (shard : Nat)
    (kv : (Nat × String) × Segment) :
    kv ∈ (take_flushable buf shard).1 ↔
      kv ∈ buf.segments ∧ kv.1.1 = shard ∧
        flush_threshold ≤ watermarkOf buf shard - kv.2.last_update :=
  takeFlushableSegs_mem _ _ _ _

/-- C2 counterexample: a batch whose two messages come from two distinct
source partitions (committables `[0]` and `[1]`) is not assigned the
configured default shard 5 — each span keeps its own message's single
committable partition, so the claim's "otherwise every span in the batch is
assigned the configured default shard" fails on this input. -/
theorem mixed_batch_not_default_shard :
    exMsgP0.committable = [0] ∧ exMsgP1.committable = [1] ∧
      process_batch ksNone 5 [exMsgP0, exMsgP1] =
        .ok ([exSpan0, exSpan1], 7) ∧
      exSpan0.partition = 0 ∧ exSpan1.partition = 1 :=
  ⟨rfl, rfl, rfl, rfl, rfl⟩

/-- C2 amended: shard resolution is per message, not per batch — every span
handed to the Buffer Engine carries the partition resolved from its own
message's committable: that partition's index when the message's
committable has exactly one entry, the configured default shard otherwise.
When all messages of a batch share one committable partition this gives the
claimed single index, but a batch spanning several source partitions
assigns each span its own message's partition rather than the default. -/
theorem shard_resolution_per_message (ks : Killswitch) (fp : Nat)
    (values : List ValueMsg) (spans : List Span) (now : Int)
    (h : process_batch ks fp values = .ok (spans, now)) :
    ∀ s ∈ spans, ∃ v ∈ values, processMsg ks fp v = .ok (some s) ∧
      s.partition = resolvePartition fp v.committable := by
  intro s hs
  have hsp := processBatchAux_ok_spans ks fp values none [] spans now h
  rw [hsp] at hs
  simp only [List.nil_append] at hs
  obtain ⟨v, hv, hsv⟩ := List.mem_filterMap.mp hs
  have hmsg : processMsg ks fp v = .ok (some s) := by
    unfold spanOf at hsv
    cases hm : processMsg ks fp v with
    | error e => rw [hm] at hsv; cases hsv
    | ok o =>
      cases o with
      | none => rw [hm] at hsv; cases hsv
      | some s2 =>
        rw [hm] at hsv
        have hss : some s2 = some s := hsv
        rw [Option.some.inj hss]
  obtain ⟨val, tid, sid, pid, _, _, _, _, _, hse⟩ :=
    processMsg_ok_some_inv ks fp v s hmsg
  exact ⟨v, hv, hmsg, by rw [hse]⟩

/-- C2 witness: the per-message shard rule applied to the concrete
two-partition batch, at the span built from the first message. -/
theorem shard_resolution_per_message_witness :
    ∃ v ∈ [exMsgP0, exMsgP1], processMsg ksNone 5 v = .ok (some exSpan0) ∧
      exSpan0.partition = resolvePartition 5 v.committable :=
  shard_resolution_per_message ksNone 5 [exMsgP0, exMsgP1]
    [exSpan0, exSpan1] 7 rfl exSpan0 (by decide)

/-- C3: the `now` handed to the buffer (and returned by `process_batch`)
is the minimum of the logical timestamps of all messages in the batch: it
is a lower bound of them and is attained by one of them. -/
theorem now_is_batch_min (ks : Killswitch) (fp : Nat) (values : List ValueMsg)
    (spans : List Span) (now : Int)
    (h : process_batch ks fp values = .ok (spans, now)) :
    (∀ v ∈ values, now ≤ v.timestamp) ∧ ∃ v ∈ values, v.timestamp = now := by
  have hmin := processBatchAux_ok_min ks fp values none [] spans now h
  cases values with
  | nil => exact absurd hmin (by simp [foldMin])
  | cons v rest =>
    have hmin' : foldMin (some v.timestamp) rest = some now := hmin
    obtain ⟨r, hr, hle, hall, hmem⟩ := foldMin_some v.timestamp rest
    rw [hmin'] at hr
    have hrnow : r = now := (Option.some.inj hr).symm
    subst hrnow
    constructor
    · intro u hu
      rcases List.mem_cons.mp hu with rfl | hu'
      · exact hle
      · exact hall u hu'
    · rcases hmem with heq | ⟨u, hu, heq⟩
      · exact ⟨v, List.mem_cons_self _ _, heq.symm⟩
      · exact ⟨u, List.mem_cons_of_mem _ hu, heq⟩

/-- C3 witness: on the concrete batch with timestamps 10 and 7 the returned
`now` is 7, the batch minimum. -/
theorem now_is_batch_min_witness :
    (∀ v ∈ [exMsgP0, exMsgP1], (7 : Int) ≤ v.timestamp) ∧
      ∃ v ∈ [exMsgP0, exMsgP1], v.timestamp = 7 :=
  now_is_batch_min ksNone 5 [exMsgP0, exMsgP1] [exSpan0, exSpan1] 7 rfl

/-- C4: a message matched by the admission predicate is silently dropped —
`processMsg` yields no span and no error, and the batch loop simply
continues with the remaining messages (only the running minimum has
absorbed the dropped message's timestamp). -/
theorem killswitch_drop_is_silent (ks : Killswitch) (fp : Nat) (v : ValueMsg)
    (val : SpanRecord) (rest : List ValueMsg) (minT : Option Int)
    (acc : List Span)
    (hp : v.payload.parsed = some val)
    (hks : ks val.organization_id val.project_id val.trace_id
      (resolvePartition fp v.committable) = true) :
    processMsg ks fp v = .ok none ∧
      processBatchAux ks fp (v :: rest) minT acc =
        processBatchAux ks fp rest (updateMin minT v.timestamp) acc := by
  have h1 := processMsg_dropped ks fp v val hp hks
  refine ⟨h1, ?_⟩
  rw [show processBatchAux ks fp (v :: rest) minT acc =
      (match processMsg ks fp v with
       | .error e => .error e
       | .ok none => processBatchAux ks fp rest (updateMin minT v.timestamp) acc
       | .ok (some s) =>
          processBatchAux ks fp rest (updateMin minT v.timestamp) (acc ++ [s]))
    from rfl, h1]

/-- C4 witness: with an always-matching killswitch the concrete message is
dropped without error and processing continues. -/
theorem killswitch_drop_is_silent_witness :
    processMsg ksAll 5 exMsgP0 = .ok none ∧
      processBatchAux ksAll 5 [exMsgP0] none [] =
        processBatchAux ksAll 5 [] (updateMin none exMsgP0.timestamp) [] :=
  killswitch_drop_is_silent ksAll 5 exMsgP0 exRecord [] none [] rfl rfl

/-- C5 counterexample: a payload that decodes but lacks the required
`span_id` key does not abort the batch when the killswitch matches it,
because the admission check runs before the bracket accesses: the batch
completes with no error and no span, refuting the claim that a missing
required key always raises. -/
theorem missing_key_not_always_error :
    exMsgNoSpanId.payload.parsed = some exRecordNoSpanId ∧
      exRecordNoSpanId.span_id = none ∧
      process_batch ksAll 0 [exMsgNoSpanId] = .ok ([], 10) :=
  ⟨rfl, rfl, rfl⟩

/-- C5 amended: a payload that fails to decode — or that is missing a
required key (`trace_id`, `span_id` or `project_id`) and is not first
dropped by the admission predicate, which runs before the key accesses —
makes `process_batch` raise, aborting the whole batch: no span of the batch
reaches the Buffer Engine and the malformed message is not individually
skipped. -/
theorem undecodable_message_aborts_batch (ks : Killswitch) (fp : Nat)
    (values : List ValueMsg) (v : ValueMsg) (hv : v ∈ values)
    (hbad : v.payload.parsed = none ∨
      ∃ val, v.payload.parsed = some val ∧
        ks val.organization_id val.project_id val.trace_id
          (resolvePartition fp v.committable) = false ∧
        (val.trace_id = none ∨ val.span_id = none ∨ val.project_id = none)) :
    ∃ e, process_batch ks fp values = .error e :=
  processBatchAux_error_of_mem ks fp values v hv
    (processMsg_bad_error ks fp v hbad) none []

/-- C5 witness: a batch holding one malformed payload errors. -/
theorem undecodable_message_aborts_batch_witness :
    ∃ e, process_batch ksNone 0 [exMsgMalformed] = .error e :=
  undecodable_message_aborts_batch ksNone 0 [exMsgMalformed] exMsgMalformed
    (by decide) (Or.inl rfl)

/-- C6: the timestamp assigner outputs the truncated producer timestamp
paired with the payload whenever the producer timestamp is present, and
falls back to the current wall-clock time only when it is absent. -/
theorem prepare_message_timestamp_choice (ts : Option ℚ) (wc : ℚ)
    (p : KafkaPayload) :
    (∀ t, ts = some t → prepare_message ts wc p = (pyTrunc t, p)) ∧
      (ts = none → prepare_message ts wc p = (pyTrunc wc, p)) := by
  constructor
  · rintro t rfl
    rfl
  · rintro rfl
    rfl

/-- C7: the list of admitted spans handed to the Buffer Engine is the
order-preserving subsequence of the batch obtained by dropping the
killswitch-matched messages — `List.filterMap` of the per-message result
over the batch in its original order. -/
theorem batch_order_preserved (ks : Killswitch) (fp : Nat)
    (values : List ValueMsg) (spans : List Span) (now : Int)
    (h : process_batch ks fp values = .ok (spans, now)) :
    spans = values.filterMap (spanOf ks fp) := by
  have := processBatchAux_ok_spans ks fp values none [] spans now h
  simpa using this

/-- C7 witness: the concrete two-message batch yields its two spans in
message order. -/
theorem batch_order_preserved_witness :
    [exSpan0, exSpan1] = [exMsgP0, exMsgP1].filterMap (spanOf ksNone 5) :=
  batch_order_preserved ksNone 5 [exMsgP0, exMsgP1] [exSpan0, exSpan1] 7 rfl

/-- C8: a materialized span's `is_segment_span` flag is true exactly when
the decoded record's `parent_span_id` is absent or the record is marked
remote, and its `payload` field holds the original serialized bytes of the
message verbatim. -/
theorem segment_root_flag_and_payload (ks : Killswitch) (fp : Nat)
    (v : ValueMsg) (val : SpanRecord) (s : Span)
    (hp : v.payload.parsed = some val)
    (h : processMsg ks fp v = .ok (some s)) :
    s.is_segment_span = (val.parent_span_id.isNone || val.is_remote) ∧
      s.payload = v.payload.value := by
  obtain ⟨val2, tid, sid, pid, hp2, _, _, _, _, hse⟩ :=
    processMsg_ok_some_inv ks fp v s h
  have hv : val = val2 := by
    rw [hp] at hp2
    exact Option.some.inj hp2
  subst hv
  rw [hse]
  exact ⟨rfl, rfl⟩

/-- C8 witness: the flag and payload equations at the concrete message. -/
theorem segment_root_flag_and_payload_witness :
    exSpan0.is_segment_span =
        (exRecord.parent_span_id.isNone || exRecord.is_remote) ∧
      exSpan0.payload = exMsgP0.payload.value :=
  segment_root_flag_and_payload ksNone 5 exMsgP0 exRecord exSpan0 rfl rfl

/-- C9: `process_batch` hits its `assert min_timestamp is not None` failure
exactly on the empty batch: any batch with at least one message sets the
minimum before any decode or admission check, so the assertion cannot fail
even when every span is dropped. -/
theorem assertion_error_iff_empty (ks : Killswitch) (fp : Nat)
    (values : List ValueMsg) :
    process_batch ks fp values = .error .assertionFailed ↔ values = [] := by
  constructor
  · intro h
    cases values with
    | nil => rfl
    | cons v rest =>
      exfalso
      rw [show process_batch ks fp (v :: rest) =
          (match processMsg ks fp v with
           | .error e => .error e
           | .ok none => processBatchAux ks fp rest (some v.timestamp) []
           | .ok (some s) => processBatchAux ks fp rest (some v.timestamp) [s])
        from rfl] at h
      cases hm : processMsg ks fp v with
      | error e =>
        rw [hm] at h
        have he : e = .assertionFailed := by simpa using h
        exact processMsg_ne_assertion ks fp v (he ▸ hm)
      | ok o =>
        rw [hm] at h
        cases o with
        | none => exact processBatchAux_some_ne_assertion ks fp rest v.timestamp [] h
        | some s => exact processBatchAux_some_ne_assertion ks fp rest v.timestamp [s] h
  · rintro rfl
    rfl

/-- C10: killswitch-dropped spans still contribute their timestamps to the
batch minimum: a non-empty batch in which every message is dropped still
completes, hands the Buffer Engine an empty span list with `now` equal to
the minimum over all (dropped) timestamps, and that ingestion call still
advances every assigned shard's tracked logical clock to at least `now`. -/
theorem dropped_spans_still_advance_clock (ks : Killswitch) (fp : Nat)
    (values : List ValueMsg) (hne : values ≠ [])
    (hall : ∀ v ∈ values, ∃ val, v.payload.parsed = some val ∧
      ks val.organization_id val.project_id val.trace_id
        (resolvePartition fp v.committable) = true) :
    ∃ now, process_batch ks fp values = .ok ([], now) ∧
      (∀ v ∈ values, now ≤ v.timestamp) ∧ (∃ v ∈ values, v.timestamp = now) ∧
      ∀ buf shard, shard ∈ buf.assigned_shards →
        (process_spans buf [] now).watermarks.lookup shard =
          some (max ((buf.watermarks.lookup shard).getD now) now) := by
  have hdrop : ∀ v ∈ values, processMsg ks fp v = .ok none := by
    intro v hv
    obtain ⟨val, hp, hks⟩ := hall v hv
    exact processMsg_dropped ks fp v val hp hks
  cases values with
  | nil => exact absurd rfl hne
  | cons v rest =>
    have hb := processBatchAux_all_dropped ks fp (v :: rest) hdrop none []
    obtain ⟨r, hr, hle, hrest, hmem⟩ := foldMin_some v.timestamp rest
    have hfold : foldMin none (v :: rest) = some r := hr
    have hb2 : process_batch ks fp (v :: rest) = .ok ([], r) := by
      show processBatchAux ks fp (v :: rest) none [] = .ok ([], r)
      rw [hb, hfold]
    refine ⟨r, hb2, ?_, ?_, ?_⟩
    · intro u hu
      rcases List.mem_cons.mp hu with rfl | hu'
      · exact hle
      · exact hrest u hu'
    · rcases hmem with heq | ⟨u, hu, heq⟩
      · exact ⟨v, List.mem_cons_self _ _, heq.symm⟩
      · exact ⟨u, List.mem_cons_of_mem _ hu, heq⟩
    · intro buf shard hsh
      exact foldlBump_mem r buf.assigned_shards shard hsh buf.watermarks

/-- C10 witness: a singleton batch whose only message is dropped still
returns its timestamp as `now` with an empty span list, and the watermark
equation holds for a concrete buffer owning shard 0. -/
theorem dropped_spans_still_advance_clock_witness :
    ∃ now, process_batch ksAll 0 [exMsgP0] = .ok ([], now) ∧
      (∀ v ∈ [exMsgP0], now ≤ v.timestamp) ∧
      (∃ v ∈ [exMsgP0], v.timestamp = now) ∧
      ∀ buf shard, shard ∈ buf.assigned_shards →
        (process_spans buf [] now).watermarks.lookup shard =
          some (max ((buf.watermarks.lookup shard).getD now) now) :=
  dropped_spans_still_advance_clock ksAll 0 [exMsgP0] (by decide)
    (by
      intro v hv
      rcases List.mem_singleton.mp hv with rfl
      exact ⟨exRecord, rfl, rfl⟩)

end SpansConsumer
